import Mathlib

/-!
Verification of the trigger-resolution and dispatch engine of the
tapestryoflegends bot.  Strings are modelled as `List Char`; the mutable
`auto_proxy` dictionary as a function `Nat → Option AutoData`; the
processing guard as a `Finset Nat`.  Each definition mirrors the Python
source in `src/bot/alias_manager.py` and `src/main.py`.
-/

namespace Bot

/-! ## String primitives (Python `str` operations on `List Char`) -/

/-- Python `str.lower()` (ASCII case folding as used by the triggers). -/
def lower (l : List Char) : List Char := l.map Char.toLower

/-- Whitespace recognised by Python `str.strip()` (the characters relevant
to the engine). -/
def isWS (c : Char) : Bool := c == ' ' || c == '\t' || c == '\n' || c == '\r'

/-- Python `str.lstrip()`. -/
def stripLeft (l : List Char) : List Char := l.dropWhile isWS

/-- Python `str.strip()`: drop leading and trailing whitespace. -/
def strip (l : List Char) : List Char :=
  ((stripLeft l).reverse.dropWhile isWS).reverse

/-- Python `s.startswith(c)` for a single character `c`. -/
def startsWithChar (c : Char) : List Char → Bool
  | [] => false
  | a :: _ => a == c

/-- Python `s.endswith(c)` for a single character `c`. -/
def endsWithChar (c : Char) (l : List Char) : Bool :=
  match l.getLast? with
  | some a => a == c
  | none => false

/-- Python `s[1:-1]`: drop the first and the last character. -/
def innerSlice (l : List Char) : List Char := (l.drop 1).dropLast

/-! ## Trigger matching and content extraction
(`AliasManager._matches_trigger`, `src/bot/alias_manager.py:332-355`). -/

/-- `AliasManager._matches_trigger(message, trigger)`: case-insensitive check
whether `message` matches the trigger pattern. -/
def matchesTrigger (message trigger : List Char) : Bool :=
  if message.isEmpty || trigger.isEmpty then false
  else
    let ml := lower message
    let tl := lower trigger
    if startsWithChar '[' tl && endsWithChar ']' tl then
      startsWithChar '[' ml && endsWithChar ']' ml && decide (2 < message.length)
    else if startsWithChar '(' tl && endsWithChar ')' tl then
      startsWithChar '(' ml && endsWithChar ')' ml && decide (2 < message.length)
    else if tl.isPrefixOf ml then true
    else if tl == ml then true
    else false

/-- `AliasManager._extract_content(message, trigger)`: the content that
survives after trigger removal (original casing preserved). -/
def extractContent (message trigger : List Char) : List Char :=
  if message.isEmpty || trigger.isEmpty then message
  else
    let ml := lower message
    let tl := lower trigger
    if startsWithChar '[' tl && endsWithChar ']' tl then
      if startsWithChar '[' ml && endsWithChar ']' ml then strip (innerSlice message)
      else message
    else if startsWithChar '(' tl && endsWithChar ')' tl then
      if startsWithChar '(' ml && endsWithChar ')' ml then strip (innerSlice message)
      else message
    else if tl == ml then []
    else if tl.isPrefixOf ml then strip (message.drop trigger.length)
    else message

/-! ## Data model -/

/-- A character alias (persona): the fields the resolution engine reads. -/
structure Alias where
  name : List Char
  trigger : List Char
deriving DecidableEq

/-- A personal trigger override row joined with its target alias
(`AliasManager._get_user_overrides`). -/
structure Override where
  personalTrigger : List Char
  al : Alias
deriving DecidableEq

/-- One entry of the `auto_proxy` dictionary:
`{'guild_id': int, 'alias': CharacterAlias | None}`. -/
structure AutoData where
  guildId : Nat
  al : Option Alias
deriving DecidableEq

/-- The `auto_proxy` dictionary, keyed by user id
(`AliasManager.auto_proxy`, `src/bot/alias_manager.py:20`). -/
def AutoMap : Type := Nat → Option AutoData

/-- Dictionary assignment `auto_proxy[uid] = v` (or deletion with `none`). -/
def updateAP (ap : AutoMap) (uid : Nat) (v : Option AutoData) : AutoMap :=
  fun k => if k = uid then v else ap k

/-- An inbound message together with the fields the engine inspects. -/
structure Msg where
  mid : Nat
  authorId : Nat
  authorBot : Bool
  hasGuild : Bool
  guildId : Nat
  content : List Char

/-! ## Sticky auto-proxy state operations
(`src/bot/alias_manager.py:584-613`). -/

/-- `AliasManager.get_alias_by_name` (case-insensitive name lookup over the
caller's stored aliases). -/
def getAliasByName (als : List Alias) (nm : List Char) : Option Alias :=
  als.find? (fun a => lower a.name == lower nm)

/-- `AliasManager.enable_auto_proxy(user_id, guild_id, alias_name)`.
Returns whether it succeeded, and the new `auto_proxy` map. -/
def enableAutoProxy (ap : AutoMap) (uid gid : Nat) (als : List Alias)
    (aliasName : List Char) : Bool × AutoMap :=
  if aliasName.isEmpty then
    (true, updateAP ap uid (some ⟨gid, none⟩))
  else
    match getAliasByName als aliasName with
    | none => (false, ap)
    | some a => (true, updateAP ap uid (some ⟨gid, some a⟩))

/-- `AliasManager.disable_auto_proxy(user_id)`. -/
def disableAutoProxy (ap : AutoMap) (uid : Nat) : Bool × AutoMap :=
  match ap uid with
  | some _ => (true, updateAP ap uid none)
  | none => (false, ap)

/-- `AliasManager.get_auto_proxy_status(user_id, guild_id)`. -/
def getAutoProxyStatus (ap : AutoMap) (uid gid : Nat) : Option Alias :=
  match ap uid with
  | some ad => if ad.guildId = gid then ad.al else none
  | none => none

/-- The sticky update performed on an explicit trigger match:
`self.auto_proxy[uid]['alias'] = alias`, guarded by membership and by
`auto_data['guild_id'] == message.guild.id`. -/
def stickyUpdate (ap : AutoMap) (uid gid : Nat) (a : Alias) : AutoMap :=
  match ap uid with
  | some ad =>
    if ad.guildId = gid then updateAP ap uid (some ⟨ad.guildId, some a⟩) else ap
  | none => ap

/-! ## Single-line trigger resolution
(`AliasManager.check_message_for_alias`, `src/bot/alias_manager.py:184-250`). -/

/-- First override whose personal trigger matches (the override `for` loop). -/
def findOverrideMatch (ovs : List Override) (content : List Char) :
    Option Override :=
  ovs.find? (fun o => matchesTrigger content o.personalTrigger)

/-- First alias (own ++ shared) whose trigger matches (the alias `for` loop). -/
def findAliasMatch (als : List Alias) (content : List Char) : Option Alias :=
  als.find? (fun a => matchesTrigger content a.trigger)

/-- Tiers 1-3 of resolution: overrides first, then own + shared aliases. -/
def explicitResolve (ovs : List Override) (als : List Alias)
    (content : List Char) : Option (Alias × List Char) :=
  match findOverrideMatch ovs content with
  | some o => some (o.al, extractContent content o.personalTrigger)
  | none =>
    match findAliasMatch als content with
    | some a => some (a, extractContent content a.trigger)
    | none => none

/-- `AliasManager.check_message_for_alias(message)`: returns the resolved
(alias, content) pair and the `auto_proxy` map after the side effects. -/
def checkMessageForAlias (m : Msg) (ovs : List Override)
    (ownAls sharedAls : List Alias) (ap : AutoMap) :
    Option (Alias × List Char) × AutoMap :=
  if !m.hasGuild || m.authorBot then (none, ap)
  else
    match explicitResolve ovs (ownAls ++ sharedAls) m.content with
    | some (a, c) => (some (a, c), stickyUpdate ap m.authorId m.guildId a)
    | none =>
      match ap m.authorId with
      | some ad =>
        match ad.al with
        | some a =>
          if ad.guildId = m.guildId then (some (a, m.content), ap) else (none, ap)
        | none => (none, ap)
      | none => (none, ap)

/-! ## Multi-line splitter
(`AliasManager.parse_multiline_aliases`, `src/bot/alias_manager.py:252-330`). -/

/-- Python `content.split(chr(10))`: split on newline, keeping empty segments. -/
def splitLines : List Char → List (List Char)
  | [] => [[]]
  | c :: rest =>
    match splitLines rest with
    | [] => [[]]
    | seg :: segs => if c = '\n' then [] :: seg :: segs else (c :: seg) :: segs

/-- Explicit-trigger match of one (already stripped) line inside the
multi-line loop: unlike the single-line path, a match whose extracted
content is blank is skipped and the scan continues. -/
def explicitLineMatch (ovs : List Override) (als : List Alias)
    (line : List Char) : Option (Alias × List Char) :=
  match ovs.find? (fun o => matchesTrigger line o.personalTrigger &&
      !(strip (extractContent line o.personalTrigger)).isEmpty) with
  | some o => some (o.al, extractContent line o.personalTrigger)
  | none =>
    match als.find? (fun a => matchesTrigger line a.trigger &&
        !(strip (extractContent line a.trigger)).isEmpty) with
    | some a => some (a, extractContent line a.trigger)
    | none => none

/-- The body of the per-line loop of `parse_multiline_aliases`, threading
the accumulated (alias, content) pairs and the `auto_proxy` map. -/
def processLine (ovs : List Override) (als : List Alias) (uid gid : Nat)
    (st : List (Alias × List Char) × AutoMap) (rawLine : List Char) :
    List (Alias × List Char) × AutoMap :=
  let acc := st.1
  let ap := st.2
  let line := strip rawLine
  if line.isEmpty then (acc, ap)
  else
    match explicitLineMatch ovs als line with
    | some (a, c) => (acc ++ [(a, c)], stickyUpdate ap uid gid a)
    | none =>
      match ap uid with
      | some ad =>
        match ad.al with
        | some a =>
          if ad.guildId = gid then (acc ++ [(a, line)], ap) else (acc, ap)
        | none => (acc, ap)
      | none => (acc, ap)

/-- `AliasManager.parse_multiline_aliases(message)`: the parsed list (when
any line resolved) and the `auto_proxy` map after the loop. -/
def parseMultilineAliases (m : Msg) (ovs : List Override)
    (ownAls sharedAls : List Alias) (ap : AutoMap) :
    Option (List (Alias × List Char)) × AutoMap :=
  if !m.hasGuild || m.authorBot then (none, ap)
  else
    let lines := splitLines m.content
    if lines.length ≤ 1 then (none, ap)
    else
      let res := lines.foldl
        (processLine ovs (ownAls ++ sharedAls) m.authorId m.guildId) ([], ap)
      if res.1.isEmpty then (none, res.2) else (some res.1, res.2)

/-! ## Dispatcher (`on_message`, `src/main.py:242-370`)

External transport effects (message deletion, webhook sends, unexpected
exceptions) are resolved by an `Oracle` supplied by the environment. -/

/-- Outcome of `message.delete()`. -/
inductive DelRes
  | ok
  | forbidden
  | notFound
  | otherErr
deriving DecidableEq

/-- Environment choices: whether an unexpected exception is raised inside
the guarded block, the outcome of the original-message deletion, and the
per-call success of each webhook send. -/
structure Oracle where
  unexpectedErr : Bool
  deleteRes : DelRes
  sendOk : List Bool

/-- Engine state touched by the dispatcher: the processing-guard set and
the `auto_proxy` map. -/
structure EngineState where
  processing : Finset Nat
  ap : AutoMap

/-- Observable result of one `on_message` handling. -/
structure HandleOut where
  processing : Finset Nat
  ap : AutoMap
  deletedOriginal : Bool
  deliveries : List (Alias × List Char)

/-- The webhook sends that succeed, in order (`sendOk` consumed by
position; exhaustion counts as success). -/
def sentList (plist : List (Alias × List Char)) (sends : List Bool) :
    List (Alias × List Char) :=
  (plist.enum.filter (fun ic => sends.getD ic.1 true)).map (fun ic => ic.2)

/-- Single-line processing: `check_message_for_alias`, then delete + send
(`src/main.py:300-364`).  A failed deletion skips the send; a failed send
delivers nothing. -/
def singleLine (m : Msg) (ovs : List Override) (ownAls sharedAls : List Alias)
    (proc1 : Finset Nat) (ap : AutoMap) (orc : Oracle) : HandleOut :=
  let cr := checkMessageForAlias m ovs ownAls sharedAls ap
  match cr.1 with
  | none => ⟨proc1, cr.2, false, []⟩
  | some (a, c) =>
    match orc.deleteRes with
    | DelRes.ok =>
      if orc.sendOk.getD 0 true then ⟨proc1, cr.2, true, [(a, c)]⟩
      else ⟨proc1, cr.2, true, []⟩
    | _ => ⟨proc1, cr.2, false, []⟩

/-- The body of the guarded `try` block of `on_message`: multi-line fan-out
when the splitter yields more than one pair naming more than one distinct
persona, otherwise fall through to single-line processing
(`src/main.py:267-364`). -/
def handleBody (m : Msg) (ovs : List Override) (ownAls sharedAls : List Alias)
    (proc1 : Finset Nat) (ap : AutoMap) (orc : Oracle) : HandleOut :=
  let pr := parseMultilineAliases m ovs ownAls sharedAls ap
  match pr.1 with
  | some plist =>
    if 1 < plist.length then
      if 1 < ((plist.map (fun p => p.1.name)).dedup).length then
        match orc.deleteRes with
        | DelRes.ok => ⟨proc1, pr.2, true, sentList plist orc.sendOk⟩
        | _ => ⟨proc1, pr.2, false, []⟩
      else ⟨proc1, pr.2, false, []⟩
    else singleLine m ovs ownAls sharedAls proc1 pr.2 orc
  | none => singleLine m ovs ownAls sharedAls proc1 pr.2 orc

/-- `on_message(message)` (`src/main.py:242-370`): pre-filters, duplicate
guard, guarded body, and the `finally` discard of the message id. -/
def handle (m : Msg) (ovs : List Override) (ownAls sharedAls : List Alias)
    (st : EngineState) (orc : Oracle) : HandleOut :=
  if m.authorBot then ⟨st.processing, st.ap, false, []⟩
  else if !m.hasGuild then ⟨st.processing, st.ap, false, []⟩
  else if (strip m.content).isEmpty then ⟨st.processing, st.ap, false, []⟩
  else if m.mid ∈ st.processing then
    -- early return inside the try block: the finally clause still runs
    ⟨st.processing.erase m.mid, st.ap, false, []⟩
  else
    let proc1 := insert m.mid st.processing
    let r :=
      if orc.unexpectedErr then (⟨proc1, st.ap, false, []⟩ : HandleOut)
      else handleBody m ovs ownAls sharedAls proc1 st.ap orc
    ⟨r.processing.erase m.mid, r.ap, r.deletedOriginal, r.deliveries⟩

/-! ## Delivery endpoint pool
(`AliasManager.get_or_create_webhook` and `_cleanup_old_webhooks`,
`src/bot/alias_manager.py:387-464`). -/

/-- A channel webhook as the pool sees it. -/
structure Webhook where
  wname : List Char
  wid : Nat
deriving DecidableEq

/-- The recognised webhook names reused across restarts. -/
def qkName : List Char :=
  ['Q', 'u', 'e', 's', 't', ' ', 'K', 'e', 'e', 'p', 'e', 'r', ' ', 'R', 'P']

/-- The second recognised webhook name. -/
def cabName : List Char :=
  ['C', 'h', 'a', 'r', 'a', 'c', 't', 'e', 'r', ' ', 'A', 'l', 'i', 'a', 's',
   ' ', 'B', 'o', 't']

/-- Membership in the recognised-name allow-list. -/
def isRecognized (w : Webhook) : Bool :=
  decide (w.wname = qkName) || decide (w.wname = cabName)

/-- The recognised webhooks deleted by cleanup: `quest_keeper_webhooks[1:]`
when more than one recognised webhook exists. -/
def delQkList (hooks : List Webhook) : List Webhook :=
  if 1 < (hooks.filter isRecognized).length then
    (hooks.filter isRecognized).drop 1
  else []

/-- The unrecognised webhooks deleted by cleanup: the first five when the
fetched list has 15 or more entries. -/
def delOtherList (hooks : List Webhook) : List Webhook :=
  if 15 ≤ hooks.length then
    (hooks.filter (fun w => !isRecognized w)).take 5
  else []

/-- Transport effects inside `_cleanup_old_webhooks`: whether its
`channel.webhooks()` fetch succeeds (a failure is re-raised at
`src/bot/alias_manager.py:462-464`), and which individual `webhook.delete()`
calls succeed (failures are swallowed by `except: pass`). -/
structure CleanupOracle where
  fetchOk : Bool
  delOk : Webhook → Bool

/-- The channel state after the two deletion loops of
`_cleanup_old_webhooks`: a webhook is gone iff it was scheduled for
deletion and its (best-effort) `delete()` call succeeded. -/
def cleanupResult (hooks : List Webhook) (delOk : Webhook → Bool) :
    List Webhook :=
  hooks.filter (fun w =>
    !((decide (w ∈ delQkList hooks) || decide (w ∈ delOtherList hooks)) &&
      delOk w))

/-- `AliasManager._cleanup_old_webhooks(channel)`: `none` when the initial
`channel.webhooks()` fetch raises (the channel is untouched and the
exception propagates); otherwise the post-deletion channel state. -/
def cleanupOldWebhooks (hooks : List Webhook) (co : CleanupOracle) :
    Option (List Webhook) :=
  if co.fetchOk then some (cleanupResult hooks co.delOk) else none

/-- Outcome of one `create_webhook` call, chosen by the environment. -/
inductive CreateRes
  | ok (wid : Nat)
  | quota
  | forbidden
  | otherErr
deriving DecidableEq

/-- Result of `get_or_create_webhook`. -/
inductive PoolOutcome
  | got (w : Webhook)
  | permissionErr
  | failErr
deriving DecidableEq

/-- Pool state for one channel: the cache entry and the channel's webhooks. -/
structure PoolState where
  cache : Option Webhook
  hooks : List Webhook
deriving DecidableEq

/-- Creation path of `get_or_create_webhook` (`src/bot/alias_manager.py:
409-435`): first attempt; on quota, cleanup and a single retry, where a
cleanup that raises is caught at lines 428-429 and skips the retry.  The
last component counts `create_webhook` calls. -/
def doCreate (st : PoolState) (co : CleanupOracle) (c1 c2 : CreateRes) :
    PoolOutcome × PoolState × Nat :=
  match c1 with
  | CreateRes.ok wid =>
    let w : Webhook := ⟨qkName, wid⟩
    (PoolOutcome.got w, ⟨some w, st.hooks ++ [w]⟩, 1)
  | CreateRes.quota =>
    match cleanupOldWebhooks st.hooks co with
    | none => (PoolOutcome.failErr, st, 1)
    | some hooks2 =>
      match c2 with
      | CreateRes.ok wid =>
        let w : Webhook := ⟨qkName, wid⟩
        (PoolOutcome.got w, ⟨some w, hooks2 ++ [w]⟩, 2)
      | _ => (PoolOutcome.failErr, ⟨st.cache, hooks2⟩, 2)
  | CreateRes.forbidden => (PoolOutcome.permissionErr, st, 1)
  | CreateRes.otherErr => (PoolOutcome.failErr, st, 1)

/-- `AliasManager.get_or_create_webhook(channel)`: cache probe, reuse of a
recognised webhook, then the creation path.  `cachedAlive` is the outcome
of `webhook.fetch()`, `listOk` of the reuse-step `channel.webhooks()`. -/
def getOrCreateWebhook (st : PoolState) (cachedAlive listOk : Bool)
    (co : CleanupOracle) (c1 c2 : CreateRes) :
    PoolOutcome × PoolState × Nat :=
  let reuse : PoolState → PoolOutcome × PoolState × Nat := fun s =>
    if listOk then
      match s.hooks.find? isRecognized with
      | some w => (PoolOutcome.got w, ⟨some w, s.hooks⟩, 0)
      | none => doCreate s co c1 c2
    else doCreate s co c1 c2
  match st.cache with
  | some w =>
    if cachedAlive then (PoolOutcome.got w, st, 0)
    else reuse ⟨none, st.hooks⟩
  | none => reuse st

/-! ## Concrete fixtures used by witnesses and counterexamples -/

/-- A persona named `A` with colon trigger `a:`. -/
def aliasA : Alias := ⟨['A'], ['a', ':']⟩

/-- The shared persona `Mira` with original trigger `mira:`. -/
def mira : Alias := ⟨['M', 'i', 'r', 'a'], ['m', 'i', 'r', 'a', ':']⟩

/-- An owned persona whose trigger `m` also matches texts starting `m.`. -/
def emm : Alias := ⟨['E', 'm', 'm'], ['m']⟩

/-- The empty auto-proxy map (no operator has auto-proxy enabled). -/
def apNone : AutoMap := fun _ => none

/-- Auto-proxy enabled-but-unset for operator 7 in guild 9. -/
def apArmed : AutoMap := fun k => if k = 7 then some ⟨9, none⟩ else none

/-- Auto-proxy enabled with persona `A` for operator 7 in guild 9. -/
def apWith : AutoMap := fun k => if k = 7 then some ⟨9, some aliasA⟩ else none

/-- C3 fixture: operator 0 enables auto-proxy in guild 1 with persona `A`. -/
def apGuild1 : AutoMap := (enableAutoProxy apNone 0 1 [aliasA] aliasA.name).2

/-- C3 fixture: the same operator then enables auto-proxy in guild 2. -/
def apGuild2 : AutoMap := (enableAutoProxy apGuild1 0 2 [] []).2

/-- An oracle where nothing fails. -/
def orcOk : Oracle := ⟨false, DelRes.ok, []⟩

/-- A single-line message `a:hi` from operator 7 in guild 9. -/
def mSingle : Msg := ⟨2, 7, false, true, 9, ['a', ':', 'h', 'i']⟩

/-- A message whose id 5 is already in the guard set. -/
def mDup : Msg := ⟨5, 7, false, true, 9, ['h', 'i']⟩

/-- A two-line message both lines of which name persona `A`. -/
def mSame : Msg := ⟨3, 7, false, true, 9, ['a', ':', 'h', '\n', 'a', ':', 'y']⟩

/-- Engine state with an empty guard set and no auto-proxy. -/
def stEmpty : EngineState := ⟨∅, apNone⟩

/-- Engine state whose guard set already holds message id 5. -/
def stDup : EngineState := ⟨{5}, apNone⟩

/-- A pool state with no cache entry, two recognised webhooks and one
unrecognised webhook on the channel. -/
def pW : PoolState :=
  ⟨none, [⟨qkName, 1⟩, ⟨qkName, 2⟩, ⟨['x'], 3⟩]⟩

/-- Cleanup transport where the fetch and every deletion succeed. -/
def coOk : CleanupOracle := ⟨true, fun _ => true⟩

/-- Cleanup transport whose `channel.webhooks()` fetch raises. -/
def coFail : CleanupOracle := ⟨false, fun _ => true⟩

end Bot

namespace Bot

/-! ## General lemmas -/

/-- `startsWithChar c l` forces `l` to begin with `c`. -/
theorem startsWithChar_shape {c : Char} {l : List Char}
    (h : startsWithChar c l = true) : ∃ rest, l = c :: rest := by
  cases l with
  | nil => simp [startsWithChar] at h
  | cons a r =>
    simp [startsWithChar] at h
    exact ⟨r, by rw [h]⟩

/-- Lowering a wrapped string, when the delimiters are case-stable. -/
theorem lower_wrap (c d : Char) (s : List Char) (hc : Char.toLower c = c)
    (hd : Char.toLower d = d) :
    lower (c :: (s ++ [d])) = c :: (lower s ++ [d]) := by
  simp [lower, hc, hd]

/-- The last character of a wrapped string. -/
theorem endsWithChar_wrap (c d : Char) (s : List Char) :
    endsWithChar d (c :: (s ++ [d])) = true := by
  unfold endsWithChar
  have h : (c :: (s ++ [d])) = (c :: s) ++ [d] := by simp
  rw [h, List.getLast?_concat]
  simp

/-- `[1:-1]` slicing undoes wrapping. -/
theorem innerSlice_wrap (c d : Char) (s : List Char) :
    innerSlice (c :: (s ++ [d])) = s := by
  simp [innerSlice]

/-- `dropWhile` is idempotent. -/
theorem dropWhile_dropWhile (p : Char → Bool) (l : List Char) :
    (l.dropWhile p).dropWhile p = l.dropWhile p := by
  induction l with
  | nil => rfl
  | cons a l ih => by_cases h : p a <;> simp [List.dropWhile_cons, h, ih]

/-- If `X` is `dropWhile`-fixed, trimming from the right keeps it fixed on
the left: the reversal of `dropWhile` on `X.reverse` is again
`dropWhile`-fixed. -/
theorem dropWhile_reverse_dropWhile (p : Char → Bool) (X : List Char)
    (hfix : X.dropWhile p = X) :
    ((X.reverse.dropWhile p).reverse).dropWhile p =
      (X.reverse.dropWhile p).reverse := by
  obtain ⟨tt, htt⟩ := List.dropWhile_suffix (l := X.reverse) p
  have hX : X = (X.reverse.dropWhile p).reverse ++ tt.reverse := by
    have h' := congrArg List.reverse htt
    simp only [List.reverse_append, List.reverse_reverse] at h'
    exact h'.symm
  cases hR : (X.reverse.dropWhile p).reverse with
  | nil => simp
  | cons h0 rr =>
    have hXc : X = h0 :: (rr ++ tt.reverse) := by rw [hX, hR]; simp
    have hws : p h0 = false := by
      by_contra hc
      rw [Bool.not_eq_false] at hc
      have hdrop : X.dropWhile p = (rr ++ tt.reverse).dropWhile p := by
        rw [hXc]; simp [List.dropWhile_cons, hc]
      rw [hfix, hXc] at hdrop
      have hlen2 : (h0 :: (rr ++ tt.reverse)).length =
          ((rr ++ tt.reverse).dropWhile p).length :=
        congrArg List.length hdrop
      have hlen : ((rr ++ tt.reverse).dropWhile p).length ≤
          (rr ++ tt.reverse).length :=
        (List.dropWhile_suffix p).length_le
      simp only [List.length_cons] at hlen2
      omega
    simp [List.dropWhile_cons, hws]

/-- Python `strip` is idempotent. -/
theorem strip_idem (l : List Char) : strip (strip l) = strip l := by
  have h1 : stripLeft (strip l) = strip l :=
    dropWhile_reverse_dropWhile isWS (stripLeft l)
      (dropWhile_dropWhile isWS l)
  have h2 : (strip l).reverse.dropWhile isWS = (strip l).reverse := by
    show (((stripLeft l).reverse.dropWhile isWS).reverse).reverse.dropWhile
        isWS = _
    rw [List.reverse_reverse, dropWhile_dropWhile]
    show _ = (((stripLeft l).reverse.dropWhile isWS).reverse).reverse
    rw [List.reverse_reverse]
  show ((stripLeft (strip l)).reverse.dropWhile isWS).reverse = strip l
  rw [h1, h2, List.reverse_reverse]

/-! ## C1: override priority -/

/-- C1: for every viewer, if some active override is the first override
whose personal trigger matches the text and it targets persona `P`, then
single-line resolution selects `P` via the override path and returns the
content extracted with the personal trigger — whatever the viewer's own
and shared alias lists contain (so even when `P`'s original trigger or an
owned persona's trigger would also match the text). -/
theorem c1_override_priority (m : Msg) (ovs : List Override)
    (ownAls sharedAls : List Alias) (ap : AutoMap) (o : Override) (P : Alias)
    (hbot : m.authorBot = false) (hg : m.hasGuild = true)
    (hfind : findOverrideMatch ovs m.content = some o) (hP : o.al = P) :
    (checkMessageForAlias m ovs ownAls sharedAls ap).1 =
      some (P, extractContent m.content o.personalTrigger) := by
  simp [checkMessageForAlias, explicitResolve, hbot, hg, hfind, hP]

/-- C1 witness: scenario 4 of the spec.  The viewer has override `m.` to
the shared persona `Mira` and owns `Emm` with trigger `m`, which also
matches `m. hi`; the override wins and content is `hi`. -/
theorem c1_witness :
    findOverrideMatch [⟨['m', '.'], mira⟩] ['m', '.', ' ', 'h', 'i'] =
        some ⟨['m', '.'], mira⟩ ∧
    (checkMessageForAlias ⟨1, 7, false, true, 9, ['m', '.', ' ', 'h', 'i']⟩
        [⟨['m', '.'], mira⟩] [emm] [] apNone).1 =
      some (mira, extractContent ['m', '.', ' ', 'h', 'i'] ['m', '.']) :=
  ⟨by decide,
   c1_override_priority ⟨1, 7, false, true, 9, ['m', '.', ' ', 'h', 'i']⟩
     [⟨['m', '.'], mira⟩] [emm] [] apNone ⟨['m', '.'], mira⟩ mira
     rfl rfl (by decide) rfl⟩

/-! ## C4: bracket/paren extraction is a left-inverse of wrapping -/

/-- C4: for every non-empty `s` and every bracket-style trigger `t` (resp.
paren-style trigger `u`), the wrapped text `[s]` (resp. `(s)`) matches and
extraction returns `trim(s)`; and the two-character literals `[]` and `()`
match no bracket- or paren-style trigger (the length > 2 rule). -/
theorem c4_bracket_left_inverse (s t u : List Char) (hs : s ≠ [])
    (ht1 : t ≠ []) (ht2 : startsWithChar '[' (lower t) = true)
    (ht3 : endsWithChar ']' (lower t) = true)
    (hu1 : u ≠ []) (hu2 : startsWithChar '(' (lower u) = true)
    (hu3 : endsWithChar ')' (lower u) = true) :
    matchesTrigger ('[' :: (s ++ [']'])) t = true ∧
    extractContent ('[' :: (s ++ [']'])) t = strip s ∧
    matchesTrigger ['[', ']'] t = false ∧
    matchesTrigger ['(', ')'] t = false ∧
    matchesTrigger ('(' :: (s ++ [')'])) u = true ∧
    extractContent ('(' :: (s ++ [')'])) u = strip s ∧
    matchesTrigger ['[', ']'] u = false ∧
    matchesTrigger ['(', ')'] u = false := by
  have htE : t.isEmpty = false := by
    cases t with
    | nil => exact absurd rfl ht1
    | cons a r => rfl
  have huE : u.isEmpty = false := by
    cases u with
    | nil => exact absurd rfl hu1
    | cons a r => rfl
  obtain ⟨ur, hul⟩ := startsWithChar_shape hu2
  have hmlB : lower ('[' :: (s ++ [']'])) = '[' :: (lower s ++ [']']) :=
    lower_wrap '[' ']' s (by decide) (by decide)
  have hmlP : lower ('(' :: (s ++ [')'])) = '(' :: (lower s ++ [')']) :=
    lower_wrap '(' ')' s (by decide) (by decide)
  have hlen : 0 < s.length := List.length_pos.mpr hs
  have huNotBr : startsWithChar '[' (lower u) = false := by
    rw [hul]; rfl
  refine ⟨?_, ?_, ?_, ?_, ?_, ?_, ?_, ?_⟩
  · simp only [matchesTrigger, htE, ht2, ht3, hmlB]
    simp [startsWithChar, endsWithChar_wrap '[' ']' (lower s),
      List.length_append]
    omega
  · simp only [extractContent, htE, ht2, ht3, hmlB]
    simp [startsWithChar, endsWithChar_wrap '[' ']' (lower s),
      innerSlice_wrap '[' ']' s]
  · simp only [matchesTrigger, htE]
    rw [ht2, ht3]
    rfl
  · simp only [matchesTrigger, htE]
    rw [ht2, ht3]
    rfl
  · simp only [matchesTrigger, huE, hu2, hu3, huNotBr, hmlP]
    simp [startsWithChar, endsWithChar_wrap '(' ')' (lower s),
      List.length_append]
    omega
  · simp only [extractContent, huE, hu2, hu3, huNotBr, hmlP]
    simp [startsWithChar, endsWithChar_wrap '(' ')' (lower s),
      innerSlice_wrap '(' ')' s]
  · simp only [matchesTrigger, huE]
    rw [huNotBr, hu2, hu3]
    rfl
  · simp only [matchesTrigger, huE]
    rw [huNotBr, hu2, hu3]
    rfl

/-- C4 witness at `s = Hi`, `t = [t]`, `u = (t)`. -/
theorem c4_witness :
    (['H', 'i'] : List Char) ≠ [] ∧
    matchesTrigger ('[' :: (['H', 'i'] ++ [']'])) ['[', 't', ']'] = true ∧
    extractContent ('[' :: (['H', 'i'] ++ [']'])) ['[', 't', ']'] =
      strip ['H', 'i'] :=
  ⟨by decide,
   (c4_bracket_left_inverse ['H', 'i'] ['[', 't', ']'] ['(', 't', ')']
      (by decide) (by decide) (by decide) (by decide) (by decide) (by decide)
      (by decide)).1,
   (c4_bracket_left_inverse ['H', 'i'] ['[', 't', ']'] ['(', 't', ')']
      (by decide) (by decide) (by decide) (by decide) (by decide) (by decide)
      (by decide)).2.1⟩

/-! ## C5: sticky update side effect -/

/-- C5: with auto-proxy enabled for the author's guild (`EnabledUnset` or
`EnabledWith`), a successful explicit match (tiers 1-3) rewrites the
sticky cell to the matched persona; when no explicit trigger matches (so
any successful resolution is the tier-4 fallback), the auto-proxy map is
returned unchanged. -/
theorem c5_sticky_side_effect (m : Msg) (ovs : List Override)
    (ownAls sharedAls : List Alias) (ap : AutoMap) (ad : AutoData)
    (hbot : m.authorBot = false) (hg : m.hasGuild = true)
    (hap : ap m.authorId = some ad) (hgid : ad.guildId = m.guildId) :
    (∀ a c,
      explicitResolve ovs (ownAls ++ sharedAls) m.content = some (a, c) →
      (checkMessageForAlias m ovs ownAls sharedAls ap).2 m.authorId =
        some ⟨m.guildId, some a⟩) ∧
    (explicitResolve ovs (ownAls ++ sharedAls) m.content = none →
      (checkMessageForAlias m ovs ownAls sharedAls ap).2 = ap) := by
  constructor
  · intro a c hres
    simp only [checkMessageForAlias, hbot, hg, hres]
    simp only [stickyUpdate, hap, hgid, if_pos]
    simp [updateAP]
  · intro hres
    simp only [checkMessageForAlias, hbot, hg, hres]
    rw [hap]
    cases had : ad.al with
    | none => simp [had]
    | some a =>
      by_cases hgg : ad.guildId = m.guildId <;> simp [had, hgg]

/-- C5 witness: operator 7, guild 9, auto-proxy armed-but-unset; the text
`a:hi` matches owned persona `A`, and afterwards the sticky cell holds
`A`; a no-trigger text leaves the map untouched. -/
theorem c5_witness :
    apArmed 7 = some ⟨9, none⟩ ∧
    (checkMessageForAlias ⟨2, 7, false, true, 9, ['a', ':', 'h', 'i']⟩
        [] [aliasA] [] apArmed).2 7 = some ⟨9, some aliasA⟩ :=
  ⟨by decide,
   (c5_sticky_side_effect ⟨2, 7, false, true, 9, ['a', ':', 'h', 'i']⟩
      [] [aliasA] [] apArmed ⟨9, none⟩ rfl rfl (by decide) rfl).1
     aliasA ['h', 'i'] (by decide)⟩

/-! ## C6: sequential sticky visibility within a multi-line batch -/

/-- Value of the sticky cell right after an explicit-match update. -/
theorem stickyUpdate_self (ap : AutoMap) (uid gid : Nat) (a : Alias)
    (ad : AutoData) (hap : ap uid = some ad) (hgid : ad.guildId = gid) :
    stickyUpdate ap uid gid a uid = some ⟨gid, some a⟩ := by
  simp [stickyUpdate, hap, hgid, updateAP]

/-- C6: in the multi-line loop with auto-proxy enabled for the operator and
guild, if line `l1` matches persona `A` via an explicit trigger and the
next line `l2` matches no explicit trigger, then `l2` resolves via the
tier-4 fallback to `A` — the sticky update from `l1` is visible to `l2`. -/
theorem c6_sticky_sequential (ovs : List Override) (als : List Alias)
    (uid gid : Nat) (ap : AutoMap) (ad : AutoData)
    (acc : List (Alias × List Char)) (l1 l2 : List Char)
    (rest : List (List Char)) (A : Alias) (c : List Char)
    (hap : ap uid = some ad) (hgid : ad.guildId = gid)
    (h1 : explicitLineMatch ovs als (strip l1) = some (A, c))
    (h2 : explicitLineMatch ovs als (strip l2) = none)
    (hl1 : (strip l1).isEmpty = false) (hl2 : (strip l2).isEmpty = false) :
    ∃ ap2,
      (l1 :: l2 :: rest).foldl (processLine ovs als uid gid) (acc, ap) =
        rest.foldl (processLine ovs als uid gid)
          (acc ++ [(A, c), (A, strip l2)], ap2) ∧
      ap2 uid = some ⟨gid, some A⟩ := by
  have hap1 : stickyUpdate ap uid gid A uid = some ⟨gid, some A⟩ :=
    stickyUpdate_self ap uid gid A ad hap hgid
  have e1 : processLine ovs als uid gid (acc, ap) l1 =
      (acc ++ [(A, c)], stickyUpdate ap uid gid A) := by
    simp [processLine, hl1, h1]
  have e2 : processLine ovs als uid gid
      (acc ++ [(A, c)], stickyUpdate ap uid gid A) l2 =
      (acc ++ [(A, c), (A, strip l2)], stickyUpdate ap uid gid A) := by
    simp [processLine, hl2, h2, hap1]
  refine ⟨stickyUpdate ap uid gid A, ?_, hap1⟩
  simp only [List.foldl_cons, e1, e2]

/-- C6 witness: line `a: hi` matches `A`; the bare line `yo` then resolves
to `A` through the sticky cell, starting from armed-but-unset state. -/
theorem c6_witness :
    apArmed 7 = some ⟨9, none⟩ ∧
    ∃ ap2,
      (['a', ':', ' ', 'h', 'i'] :: ['y', 'o'] :: []).foldl
          (processLine [] [aliasA] 7 9) ([], apArmed) =
        ([] : List (List Char)).foldl (processLine [] [aliasA] 7 9)
          ([] ++ [(aliasA, ['h', 'i']), (aliasA, strip ['y', 'o'])], ap2) ∧
      ap2 7 = some ⟨9, some aliasA⟩ :=
  ⟨by decide,
   c6_sticky_sequential [] [aliasA] 7 9 apArmed ⟨9, none⟩ []
     ['a', ':', ' ', 'h', 'i'] ['y', 'o'] [] aliasA ['h', 'i']
     (by decide) rfl (by decide) (by decide) (by decide) (by decide)⟩

/-! ## C3: sticky state scoping (corrected) -/

/-- C3 counterexample: operator 0 enables auto-proxy in guild 1 with
persona `A` (status in guild 1 becomes `A`); enabling auto-proxy in guild
2 then erases the operator's guild-1 state — so enabling in one guild does
not leave other guilds' auto-proxy state unchanged. -/
theorem c3_cex :
    getAutoProxyStatus apGuild1 0 1 = some aliasA ∧
    (enableAutoProxy apGuild1 0 2 [] []).1 = true ∧
    getAutoProxyStatus apGuild2 0 1 = none := by
  decide

/-- C3 amended: the auto-proxy store keeps a single cell per operator
(tagged with one guild), not one cell per (operator, guild): an implicit
sticky update scoped to guild `g2` leaves the operator's status in any
other guild `g1` unchanged, but a successful `enable` in `g2` erases the
operator's state in `g1`, and `disable` clears the state for every guild. -/
theorem c3_amended (ap : AutoMap) (uid g1 g2 : Nat) (als : List Alias)
    (nm : List Char) (a : Alias) (hne : g1 ≠ g2) :
    getAutoProxyStatus (stickyUpdate ap uid g2 a) uid g1 =
      getAutoProxyStatus ap uid g1 ∧
    ((enableAutoProxy ap uid g2 als nm).1 = true →
      getAutoProxyStatus (enableAutoProxy ap uid g2 als nm).2 uid g1 = none) ∧
    getAutoProxyStatus (disableAutoProxy ap uid).2 uid g1 = none := by
  refine ⟨?_, ?_, ?_⟩
  · simp only [stickyUpdate]
    cases hap : ap uid with
    | none => rfl
    | some ad =>
      by_cases hgg : ad.guildId = g2
      · have h1 : ¬ad.guildId = g1 := fun h => hne (h.symm.trans hgg)
        have h2 : ¬g2 = g1 := fun h => hne h.symm
        simp [hgg, getAutoProxyStatus, updateAP, hap, h1, h2]
      · simp [hgg, getAutoProxyStatus, hap]
  · intro hok
    by_cases hnm : nm.isEmpty
    · simp [enableAutoProxy, hnm, getAutoProxyStatus, updateAP, hne.symm]
    · cases hfind : getAliasByName als nm with
      | none => simp [enableAutoProxy, hnm, hfind] at hok
      | some b =>
        simp [enableAutoProxy, hnm, hfind, getAutoProxyStatus, updateAP,
          hne.symm]
  · simp only [disableAutoProxy]
    cases hap : ap uid with
    | none => simp [getAutoProxyStatus, hap]
    | some ad => simp [getAutoProxyStatus, updateAP]

/-! ## C10: splitter output content is never blank -/

/-- A successful explicit line match carries non-blank extracted content
(the `if actual_content.strip():` guard of the multi-line loop). -/
theorem explicitLineMatch_nonblank {ovs : List Override} {als : List Alias}
    {line : List Char} {a : Alias} {c : List Char}
    (h : explicitLineMatch ovs als line = some (a, c)) :
    (strip c).isEmpty = false := by
  simp only [explicitLineMatch] at h
  split at h
  · next o ho =>
    have hp := List.find?_some ho
    simp only [Bool.and_eq_true, Bool.not_eq_true'] at hp
    simp only [Option.some.injEq, Prod.mk.injEq] at h
    rw [← h.2]
    exact hp.2
  · split at h
    · next b hb =>
      have hp := List.find?_some hb
      simp only [Bool.and_eq_true, Bool.not_eq_true'] at hp
      simp only [Option.some.injEq, Prod.mk.injEq] at h
      rw [← h.2]
      exact hp.2
    · exact absurd h (by simp)

/-- The three possible shapes of one `processLine` step, as far as the
accumulated pair list is concerned. -/
theorem processLine_cases (ovs : List Override) (als : List Alias)
    (uid gid : Nat) (st : List (Alias × List Char) × AutoMap)
    (rawLine : List Char) :
    (processLine ovs als uid gid st rawLine).1 = st.1 ∨
    (∃ a c, explicitLineMatch ovs als (strip rawLine) = some (a, c) ∧
      (processLine ovs als uid gid st rawLine).1 = st.1 ++ [(a, c)]) ∨
    ((strip rawLine).isEmpty = false ∧
      ∃ a, (processLine ovs als uid gid st rawLine).1 =
        st.1 ++ [(a, strip rawLine)]) := by
  simp only [processLine]
  split
  · exact Or.inl rfl
  · next hne =>
    have hne' : (strip rawLine).isEmpty = false := by
      simpa using hne
    split
    · next a c hm => exact Or.inr (Or.inl ⟨a, c, hm, rfl⟩)
    · split
      · next ad had =>
        split
        · next a hal =>
          split
          · exact Or.inr (Or.inr ⟨hne', a, rfl⟩)
          · exact Or.inl rfl
        · exact Or.inl rfl
      · exact Or.inl rfl

/-- Every pair accumulated by the multi-line loop has non-blank content. -/
theorem foldl_processLine_nonblank (ovs : List Override) (als : List Alias)
    (uid gid : Nat) :
    ∀ (lines : List (List Char)) (acc : List (Alias × List Char))
      (ap : AutoMap),
      (∀ p ∈ acc, (strip p.2).isEmpty = false) →
      ∀ p ∈ (lines.foldl (processLine ovs als uid gid) (acc, ap)).1,
        (strip p.2).isEmpty = false := by
  intro lines
  induction lines with
  | nil => intro acc ap hinv p hp; exact hinv p hp
  | cons l ls ih =>
    intro acc ap hinv p hp
    rw [List.foldl_cons] at hp
    have hinv' : ∀ q ∈ (processLine ovs als uid gid (acc, ap) l).1,
        (strip q.2).isEmpty = false := by
      rcases processLine_cases ovs als uid gid (acc, ap) l with
        hc | ⟨a, c, hm, hc⟩ | ⟨hne, a, hc⟩
      · rw [hc]; exact hinv
      · rw [hc]
        intro q hq
        rcases List.mem_append.mp hq with hq | hq
        · exact hinv q hq
        · have hq' : q = (a, c) := by simpa using hq
          rw [hq']
          exact explicitLineMatch_nonblank hm
      · rw [hc]
        intro q hq
        rcases List.mem_append.mp hq with hq | hq
        · exact hinv q hq
        · have hq' : q = (a, strip l) := by simpa using hq
          rw [hq']
          simpa [strip_idem] using hne
    exact ih _ _ hinv' p hp

/-- C10: (1) every (persona, content) pair returned by the multi-line
splitter has content that is non-blank after trimming; (2) a line on which
no explicit trigger yields non-blank content (in particular a line that is
exactly a trigger) is not emitted via an explicit match, and falls through
to the tier-4 auto-proxy fallback with the whole trimmed line as content
when auto-proxy is set for the operator and guild. -/
theorem c10_splitter_nonblank :
    (∀ (m : Msg) (ovs : List Override) (ownAls sharedAls : List Alias)
      (ap : AutoMap) (pairs : List (Alias × List Char)),
      (parseMultilineAliases m ovs ownAls sharedAls ap).1 = some pairs →
      ∀ p ∈ pairs, (strip p.2).isEmpty = false) ∧
    (∀ (ovs : List Override) (als : List Alias) (uid gid : Nat)
      (ap : AutoMap) (acc : List (Alias × List Char)) (rawLine : List Char)
      (ad : AutoData) (a : Alias),
      explicitLineMatch ovs als (strip rawLine) = none →
      ap uid = some ad → ad.guildId = gid → ad.al = some a →
      (strip rawLine).isEmpty = false →
      processLine ovs als uid gid (acc, ap) rawLine =
        (acc ++ [(a, strip rawLine)], ap)) := by
  constructor
  · intro m ovs ownAls sharedAls ap pairs hp p hmem
    simp only [parseMultilineAliases] at hp
    split at hp
    · exact absurd hp (by simp)
    · split at hp
      · exact absurd hp (by simp)
      · split at hp
        · exact absurd hp (by simp)
        · simp only [Option.some.injEq] at hp
          rw [← hp] at hmem
          exact foldl_processLine_nonblank ovs
            (ownAls ++ sharedAls) m.authorId m.guildId
            (splitLines m.content) [] ap (by intro q hq; cases hq) p hmem
  · intro ovs als uid gid ap acc rawLine ad a hm hap hgid hal hne
    simp only [processLine, hne, hm, hap, hal, hgid]
    simp

/-- C10 witness: the parsed pairs of `a:hi / a:yo` are non-blank, and the
bare line `yo` falls through to the sticky persona with the trimmed line
as content. -/
theorem c10_witness :
    (parseMultilineAliases ⟨4, 7, false, true, 9,
        ['a', ':', 'h', 'i', '\n', 'a', ':', 'y', 'o']⟩ [] [aliasA] []
        apNone).1 = some [(aliasA, ['h', 'i']), (aliasA, ['y', 'o'])] ∧
    (strip ['h', 'i']).isEmpty = false ∧
    processLine [] [] 7 9 ([], apWith) ['y', 'o'] =
      ([] ++ [(aliasA, strip ['y', 'o'])], apWith) :=
  ⟨by decide,
   c10_splitter_nonblank.1 ⟨4, 7, false, true, 9,
       ['a', ':', 'h', 'i', '\n', 'a', ':', 'y', 'o']⟩ [] [aliasA] [] apNone
     [(aliasA, ['h', 'i']), (aliasA, ['y', 'o'])] (by decide)
     (aliasA, ['h', 'i']) (by decide),
   c10_splitter_nonblank.2 [] [] 7 9 apWith [] ['y', 'o'] ⟨9, some aliasA⟩
     aliasA (by decide) (by decide) rfl rfl (by decide)⟩

/-- C3 witness for the amended statement, at guilds 1 ≠ 2 and the concrete
maps of the counterexample. -/
theorem c3_witness :
    (1 : Nat) ≠ 2 ∧
    (getAutoProxyStatus (stickyUpdate apGuild1 0 2 aliasA) 0 1 =
        getAutoProxyStatus apGuild1 0 1 ∧
      ((enableAutoProxy apGuild1 0 2 [] []).1 = true →
        getAutoProxyStatus (enableAutoProxy apGuild1 0 2 [] []).2 0 1 =
          none) ∧
      getAutoProxyStatus (disableAutoProxy apGuild1 0).2 0 1 = none) :=
  ⟨by decide, c3_amended apGuild1 0 1 2 [] [] aliasA (by decide)⟩

/-! ## Dispatcher lemmas shared by C2, C7 and C8 -/

/-- Single-line processing never touches the guard set. -/
theorem singleLine_processing (m : Msg) (ovs : List Override)
    (ownAls sharedAls : List Alias) (proc1 : Finset Nat) (ap : AutoMap)
    (orc : Oracle) :
    (singleLine m ovs ownAls sharedAls proc1 ap orc).processing = proc1 := by
  simp only [singleLine]
  split
  · rfl
  · split
    · split <;> rfl
    · rfl

/-- The guarded body of `on_message` never touches the guard set; the
`finally` clause in `handle` is the only place it shrinks. -/
theorem handleBody_processing (m : Msg) (ovs : List Override)
    (ownAls sharedAls : List Alias) (proc1 : Finset Nat) (ap : AutoMap)
    (orc : Oracle) :
    (handleBody m ovs ownAls sharedAls proc1 ap orc).processing = proc1 := by
  simp only [handleBody]
  split
  · split
    · split
      · split <;> rfl
      · rfl
    · exact singleLine_processing m ovs ownAls sharedAls proc1 _ orc
  · exact singleLine_processing m ovs ownAls sharedAls proc1 _ orc

/-! ## C8: the guard never leaks -/

/-- C8: for every handling of a message that passes the pre-filters (not a
bot, in a guild, non-blank) — successful delivery, multi-line delivery,
no-match no-op, duplicate no-op, or any failure oracle — the message id is
absent from the guard set afterwards; the final set is exactly the initial
set with the id erased. -/
theorem c8_guard_never_leaks (m : Msg) (ovs : List Override)
    (ownAls sharedAls : List Alias) (st : EngineState) (orc : Oracle)
    (hbot : m.authorBot = false) (hg : m.hasGuild = true)
    (hc : (strip m.content).isEmpty = false) :
    (handle m ovs ownAls sharedAls st orc).processing =
      st.processing.erase m.mid ∧
    m.mid ∉ (handle m ovs ownAls sharedAls st orc).processing := by
  have h1 : (handle m ovs ownAls sharedAls st orc).processing =
      st.processing.erase m.mid := by
    simp only [handle, hbot, hg, hc]
    by_cases hdup : m.mid ∈ st.processing
    · simp [hdup]
    · by_cases herr : orc.unexpectedErr
      · simp [hdup, herr, Finset.erase_insert_eq_erase]
      · simp [hdup, herr, handleBody_processing,
          Finset.erase_insert_eq_erase]
  exact ⟨h1, h1 ▸ Finset.not_mem_erase _ _⟩

/-- C8 witness at a concrete successful single-line delivery. -/
theorem c8_witness :
    mSingle.authorBot = false ∧
    (handle mSingle [] [aliasA] [] stEmpty orcOk).processing =
        stEmpty.processing.erase mSingle.mid ∧
    mSingle.mid ∉ (handle mSingle [] [aliasA] [] stEmpty orcOk).processing :=
  ⟨rfl, c8_guard_never_leaks mSingle [] [aliasA] [] stEmpty orcOk rfl rfl
    (by decide)⟩

/-! ## C7: duplicate processing (corrected) -/

/-- C7 counterexample: with message id 5 already in the guard set, the
duplicate handling performs no deletion and no delivery, but the `finally`
clause discards the id, leaving the guard set empty — the in-flight entry
does not remain present. -/
theorem c7_cex :
    (5 : Nat) ∈ stDup.processing ∧
    (handle mDup [] [] [] stDup orcOk).deliveries = [] ∧
    (handle mDup [] [] [] stDup orcOk).deletedOriginal = false ∧
    (handle mDup [] [] [] stDup orcOk).processing = ∅ := by
  decide

/-- C7 amended: handling a message whose id is already in the guard set
performs no resolution side effects, no deletion and no delivery, and
leaves the auto-proxy map unchanged; but the early return still runs the
`finally` clause, which removes the id from the guard set (so the
in-flight entry placed by the concurrent handler is discarded rather than
left present). -/
theorem c7_duplicate_discards (m : Msg) (ovs : List Override)
    (ownAls sharedAls : List Alias) (st : EngineState) (orc : Oracle)
    (hbot : m.authorBot = false) (hg : m.hasGuild = true)
    (hc : (strip m.content).isEmpty = false)
    (hdup : m.mid ∈ st.processing) :
    handle m ovs ownAls sharedAls st orc =
      ⟨st.processing.erase m.mid, st.ap, false, []⟩ := by
  simp only [handle, hbot, hg, hc]
  simp [hdup]

/-- C7 witness for the amended statement at the concrete duplicate. -/
theorem c7_witness :
    (5 : Nat) ∈ stDup.processing ∧
    handle mDup [] [] [] stDup orcOk =
      ⟨stDup.processing.erase 5, stDup.ap, false, []⟩ :=
  ⟨by decide,
   c7_duplicate_discards mDup [] [] [] stDup orcOk rfl rfl (by decide)
     (by decide)⟩

/-! ## C2: multi-line same-persona handling (corrected) -/

/-- C2 counterexample: for the two-line message `a:h / a:y`, the splitter
yields two pairs naming the single persona `A`; the dispatcher then
delivers nothing and does not delete the original — even though the
single-line resolution path would succeed on the raw text (so the message
is not processed by single-line handling). -/
theorem c2_cex :
    (parseMultilineAliases mSame [] [aliasA] [] apNone).1 =
        some [(aliasA, ['h']), (aliasA, ['y'])] ∧
    (handle mSame [] [aliasA] [] stEmpty orcOk).deliveries = [] ∧
    (handle mSame [] [aliasA] [] stEmpty orcOk).deletedOriginal = false ∧
    (checkMessageForAlias mSame [] [aliasA] [] apNone).1 =
      some (aliasA, ['h', '\n', 'a', ':', 'y']) := by
  decide

/-- C2 amended: when the splitter output has more than one pair but they
all name one persona, the dispatcher exits without delivering the split
list, without deleting the original, and **without** falling back to
single-line handling: the result carries no deliveries, the auto-proxy map
left by the parse, and the released guard. -/
theorem c2_same_persona_skip (m : Msg) (ovs : List Override)
    (ownAls sharedAls : List Alias) (st : EngineState) (orc : Oracle)
    (plist : List (Alias × List Char))
    (hbot : m.authorBot = false) (hg : m.hasGuild = true)
    (hc : (strip m.content).isEmpty = false)
    (hdup : m.mid ∉ st.processing)
    (herr : orc.unexpectedErr = false)
    (hparse : (parseMultilineAliases m ovs ownAls sharedAls st.ap).1 =
      some plist)
    (hlen : 1 < plist.length)
    (huniq : ¬1 < ((plist.map (fun p => p.1.name)).dedup).length) :
    handle m ovs ownAls sharedAls st orc =
      ⟨st.processing.erase m.mid,
       (parseMultilineAliases m ovs ownAls sharedAls st.ap).2, false, []⟩ := by
  have hb : handleBody m ovs ownAls sharedAls (insert m.mid st.processing)
      st.ap orc =
      ⟨insert m.mid st.processing,
       (parseMultilineAliases m ovs ownAls sharedAls st.ap).2, false, []⟩ := by
    simp only [handleBody, hparse]
    simp [hlen, huniq]
  simp only [handle, hbot, hg, hc]
  simp [hdup, herr, hb, Finset.erase_insert_eq_erase]

/-- C2 witness for the amended statement: two lines, one persona. -/
theorem c2_witness :
    (parseMultilineAliases mSame [] [aliasA] [] stEmpty.ap).1 =
        some [(aliasA, ['h']), (aliasA, ['y'])] ∧
    handle mSame [] [aliasA] [] stEmpty orcOk =
      ⟨stEmpty.processing.erase 3,
       (parseMultilineAliases mSame [] [aliasA] [] stEmpty.ap).2, false,
       []⟩ :=
  ⟨by decide,
   c2_same_persona_skip mSame [] [aliasA] [] stEmpty orcOk
     [(aliasA, ['h']), (aliasA, ['y'])] rfl rfl (by decide) (by decide) rfl
     (by decide) (by decide) (by decide)⟩

/-! ## C9: quota recovery protocol -/

/-- Every webhook scheduled for recognised-cleanup is recognised. -/
theorem mem_delQkList_rec {hooks : List Webhook} {w : Webhook}
    (h : w ∈ delQkList hooks) : isRecognized w = true := by
  simp only [delQkList] at h
  split at h
  · exact (List.mem_filter.mp (List.mem_of_mem_drop h)).2
  · cases h

/-- Every webhook scheduled for unrecognised-cleanup is unrecognised. -/
theorem mem_delOtherList_unrec {hooks : List Webhook} {w : Webhook}
    (h : w ∈ delOtherList hooks) : isRecognized w = false := by
  simp only [delOtherList] at h
  split at h
  · have := (List.mem_filter.mp (List.mem_of_mem_take h)).2
    simpa using this
  · cases h

/-- At most five unrecognised webhooks are scheduled for deletion. -/
theorem delOtherList_length_le (hooks : List Webhook) :
    (delOtherList hooks).length ≤ 5 := by
  simp only [delOtherList]
  split
  · exact List.length_take_le 5 _
  · simp

/-- Below the hard cap, no unrecognised webhook is scheduled for deletion. -/
theorem delOtherList_eq_nil {hooks : List Webhook}
    (h : hooks.length < 15) : delOtherList hooks = [] := by
  simp only [delOtherList]
  rw [if_neg (by omega)]

/-- Cleanup keeps every recognised webhook that was kept before: the first
recognised webhook is never scheduled, and a scheduled one survives iff
its best-effort deletion failed. -/
theorem cleanupResult_filter_rec (hooks : List Webhook)
    (delOk : Webhook → Bool) (hnd : hooks.Nodup) :
    (cleanupResult hooks delOk).filter isRecognized =
      (hooks.filter isRecognized).take 1 ++
        ((hooks.filter isRecognized).drop 1).filter (fun w => !delOk w) := by
  simp only [cleanupResult]
  rw [List.filter_filter]
  rw [List.filter_congr (q := fun a =>
      !(decide (a ∈ delQkList hooks) && delOk a) && isRecognized a) ?_]
  · rw [← List.filter_filter]
    by_cases hq : 1 < (hooks.filter isRecognized).length
    · obtain ⟨q0, qt, hqe⟩ : ∃ q0 qt,
          hooks.filter isRecognized = q0 :: qt := by
        cases hqs : hooks.filter isRecognized with
        | nil => rw [hqs] at hq; simp at hq
        | cons x xs => exact ⟨x, xs, rfl⟩
      have hdel : delQkList hooks = qt := by
        simp only [delQkList, hqe]
        rw [if_pos (by rw [hqe] at hq; exact hq)]
        rfl
      have hq0 : q0 ∉ qt := by
        have hf := hnd.filter isRecognized
        rw [hqe] at hf
        exact (List.nodup_cons.mp hf).1
      rw [hqe, hdel]
      rw [List.filter_cons_of_pos (by simp [hq0])]
      have hqt : qt.filter (fun a => !(decide (a ∈ qt) && delOk a)) =
          qt.filter (fun w => !delOk w) :=
        List.filter_congr (by intro a ha; simp [ha])
      rw [hqt]
      rfl
    · have hdel : delQkList hooks = [] := by
        simp only [delQkList]
        rw [if_neg hq]
      rw [hdel]
      have hall : (hooks.filter isRecognized).filter
          (fun a => !(decide (a ∈ ([] : List Webhook)) && delOk a)) =
          hooks.filter isRecognized := by simp
      have hle : (hooks.filter isRecognized).length ≤ 1 := by omega
      rw [hall, List.take_of_length_le hle, List.drop_eq_nil_of_le hle]
      simp
  · intro a ha
    cases hrec : isRecognized a with
    | false => simp [hrec]
    | true =>
      have hno : a ∉ delOtherList hooks := fun hmem => by
        rw [mem_delOtherList_unrec hmem] at hrec
        cases hrec
      simp [hrec, hno]

/-- Cleanup deletes at most five unrecognised webhooks, whichever
deletions succeed. -/
theorem cleanupResult_unrec_bound (hooks : List Webhook)
    (delOk : Webhook → Bool) (hnd : hooks.Nodup) :
    (hooks.filter (fun w => !isRecognized w)).length ≤
      ((cleanupResult hooks delOk).filter
        (fun w => !isRecognized w)).length + 5 := by
  have hcleanup : (cleanupResult hooks delOk).filter
      (fun w => !isRecognized w) =
      (hooks.filter (fun w => !isRecognized w)).filter
        (fun a => !(decide (a ∈ delOtherList hooks) && delOk a)) := by
    simp only [cleanupResult]
    rw [List.filter_filter, List.filter_filter]
    apply List.filter_congr
    intro a ha
    cases hrec : isRecognized a with
    | false =>
      have hno : a ∉ delQkList hooks := fun hmem => by
        rw [mem_delQkList_rec hmem] at hrec
        cases hrec
      simp [hrec, hno]
    | true => simp [hrec]
  rw [hcleanup]
  have hsplit := List.length_eq_length_filter_add
    (l := hooks.filter (fun w => !isRecognized w))
    (fun a => !(decide (a ∈ delOtherList hooks) && delOk a))
  have hbound : ((hooks.filter (fun w => !isRecognized w)).filter
      (fun a =>
        !(!(decide (a ∈ delOtherList hooks) && delOk a)))).length ≤ 5 := by
    have hsub : ((hooks.filter (fun w => !isRecognized w)).filter
        (fun a => !(!(decide (a ∈ delOtherList hooks) && delOk a)))) ⊆
        delOtherList hooks := by
      intro a ha
      have h2 := (List.mem_filter.mp ha).2
      simp at h2
      exact h2.1
    have hndf := (hnd.filter (fun w => !isRecognized w)).filter
      (fun a => !(!(decide (a ∈ delOtherList hooks) && delOk a)))
    exact le_trans ((hndf.subperm hsub).length_le)
      (delOtherList_length_le hooks)
  omega

/-- Below the hard cap, cleanup schedules no unrecognised webhook, so all
of them survive. -/
theorem cleanupResult_under_cap (hooks : List Webhook)
    (delOk : Webhook → Bool) (h15 : hooks.length < 15) :
    (cleanupResult hooks delOk).filter (fun w => !isRecognized w) =
      hooks.filter (fun w => !isRecognized w) := by
  simp only [cleanupResult, delOtherList_eq_nil h15]
  rw [List.filter_filter]
  apply List.filter_congr
  intro a ha
  cases hrec : isRecognized a with
  | false =>
    have hno : a ∉ delQkList hooks := fun hmem => by
      rw [mem_delQkList_rec hmem] at hrec
      cases hrec
    simp [hrec, hno]
  | true => simp [hrec]

/-- C9 counterexample: the channel is at quota and cleanup's own
`channel.webhooks()` fetch raises; the exception is caught at
`src/bot/alias_manager.py:428-429`, so the pool makes only ONE creation
call — creation is not retried (even though a retry would have succeeded)
— and the send fails with the channel untouched.  This refutes "retries
creation exactly once". -/
theorem c9_cex :
    (getOrCreateWebhook pW false false coFail CreateRes.quota
        (CreateRes.ok 9)).2.2 = 1 ∧
    (getOrCreateWebhook pW false false coFail CreateRes.quota
        (CreateRes.ok 9)).1 = PoolOutcome.failErr ∧
    (getOrCreateWebhook pW false false coFail CreateRes.quota
        (CreateRes.ok 9)).2.1.hooks = pW.hooks := by
  decide

/-- C9 amended: when the cache yields nothing and no recognised webhook is
reused, a quota-failed creation is followed by at most one retry.  If the
cleanup fetch fails, the send fails after a single creation call with the
channel untouched.  If the cleanup fetch succeeds, creation is retried
exactly once (two calls in total) on the post-cleanup state, and a failed
retry is fatal.  Cleanup never deletes the first recognised webhook and
attempts deletion exactly of the remaining recognised ones (each
best-effort, surviving iff its deletion fails) — so when the deletions
succeed only the first recognised webhook remains; it deletes at most
five unrecognised webhooks and none when the fetched list is below the
hard cap of 15. -/
theorem c9_quota_recovery (st : PoolState) (cachedAlive listOk : Bool)
    (co : CleanupOracle) (c2 : CreateRes) (hnd : st.hooks.Nodup)
    (hc : st.cache = none ∨ cachedAlive = false)
    (hre : listOk = false ∨ st.hooks.find? isRecognized = none) :
    (getOrCreateWebhook st cachedAlive listOk co
      CreateRes.quota c2).2.2 ≤ 2 ∧
    (co.fetchOk = false →
      (getOrCreateWebhook st cachedAlive listOk co
          CreateRes.quota c2).1 = PoolOutcome.failErr ∧
      (getOrCreateWebhook st cachedAlive listOk co
          CreateRes.quota c2).2.2 = 1 ∧
      (getOrCreateWebhook st cachedAlive listOk co
          CreateRes.quota c2).2.1.hooks = st.hooks) ∧
    (co.fetchOk = true →
      (getOrCreateWebhook st cachedAlive listOk co
          CreateRes.quota c2).2.2 = 2 ∧
      (∀ wid, c2 = CreateRes.ok wid →
        (getOrCreateWebhook st cachedAlive listOk co
            CreateRes.quota c2).1 = PoolOutcome.got ⟨qkName, wid⟩ ∧
        (getOrCreateWebhook st cachedAlive listOk co
            CreateRes.quota c2).2.1.hooks =
          cleanupResult st.hooks co.delOk ++ [⟨qkName, wid⟩]) ∧
      ((∀ wid, c2 ≠ CreateRes.ok wid) →
        (getOrCreateWebhook st cachedAlive listOk co
            CreateRes.quota c2).1 = PoolOutcome.failErr ∧
        (getOrCreateWebhook st cachedAlive listOk co
            CreateRes.quota c2).2.1.hooks =
          cleanupResult st.hooks co.delOk)) ∧
    (cleanupResult st.hooks co.delOk).filter isRecognized =
      (st.hooks.filter isRecognized).take 1 ++
        ((st.hooks.filter isRecognized).drop 1).filter
          (fun w => !co.delOk w) ∧
    ((∀ w, co.delOk w = true) →
      (cleanupResult st.hooks co.delOk).filter isRecognized =
        (st.hooks.filter isRecognized).take 1) ∧
    (st.hooks.filter (fun w => !isRecognized w)).length ≤
      ((cleanupResult st.hooks co.delOk).filter
        (fun w => !isRecognized w)).length + 5 ∧
    (st.hooks.length < 15 →
      (cleanupResult st.hooks co.delOk).filter (fun w => !isRecognized w) =
        st.hooks.filter (fun w => !isRecognized w)) := by
  obtain ⟨cache, hooks⟩ := st
  simp only at hnd hc hre ⊢
  have hreuse : (if listOk = true then
      match hooks.find? isRecognized with
      | some w => (PoolOutcome.got w, (⟨some w, hooks⟩ : PoolState), 0)
      | none => doCreate ⟨none, hooks⟩ co CreateRes.quota c2
    else doCreate ⟨none, hooks⟩ co CreateRes.quota c2) =
      doCreate ⟨none, hooks⟩ co CreateRes.quota c2 := by
    rcases hre with hre | hre
    · rw [hre]
      simp
    · rw [hre]
      by_cases hl : listOk <;> simp [hl]
  have hcall : getOrCreateWebhook ⟨cache, hooks⟩ cachedAlive listOk co
      CreateRes.quota c2 = doCreate ⟨none, hooks⟩ co CreateRes.quota c2 := by
    simp only [getOrCreateWebhook]
    rcases hc with hc | hc
    · subst hc
      exact hreuse
    · subst hc
      cases cache with
      | none => exact hreuse
      | some w => exact hreuse
  rw [hcall]
  refine ⟨?_, ?_, ?_, cleanupResult_filter_rec hooks co.delOk hnd, ?_,
    cleanupResult_unrec_bound hooks co.delOk hnd,
    cleanupResult_under_cap hooks co.delOk⟩
  · cases hf : co.fetchOk with
    | false => simp [doCreate, cleanupOldWebhooks, hf]
    | true => cases c2 <;> simp [doCreate, cleanupOldWebhooks, hf]
  · intro hf
    refine ⟨?_, ?_, ?_⟩ <;> simp [doCreate, cleanupOldWebhooks, hf]
  · intro hf
    refine ⟨?_, ?_, ?_⟩
    · cases c2 <;> simp [doCreate, cleanupOldWebhooks, hf]
    · intro wid h2
      subst h2
      exact ⟨by simp [doCreate, cleanupOldWebhooks, hf],
        by simp [doCreate, cleanupOldWebhooks, hf]⟩
    · intro hno
      cases hc2 : c2 with
      | ok wid => exact absurd hc2 (hno wid)
      | quota =>
        exact ⟨by simp [doCreate, cleanupOldWebhooks, hf],
          by simp [doCreate, cleanupOldWebhooks, hf]⟩
      | forbidden =>
        exact ⟨by simp [doCreate, cleanupOldWebhooks, hf],
          by simp [doCreate, cleanupOldWebhooks, hf]⟩
      | otherErr =>
        exact ⟨by simp [doCreate, cleanupOldWebhooks, hf],
          by simp [doCreate, cleanupOldWebhooks, hf]⟩
  · intro hall
    rw [cleanupResult_filter_rec hooks co.delOk hnd]
    have hnil : ((hooks.filter isRecognized).drop 1).filter
        (fun w => !co.delOk w) = [] :=
      List.filter_eq_nil_iff.mpr (by intro a ha; simp [hall a])
    rw [hnil, List.append_nil]

/-- C9 witness for the amended statement: channel with two recognised and
one unrecognised webhook, cache empty, listing unavailable, reliable
cleanup transport, both creation attempts hitting the quota. -/
theorem c9_witness :
    pW.hooks.Nodup ∧
    ((getOrCreateWebhook pW false false coOk CreateRes.quota
        CreateRes.quota).2.2 ≤ 2 ∧
     (coOk.fetchOk = false →
       (getOrCreateWebhook pW false false coOk CreateRes.quota
           CreateRes.quota).1 = PoolOutcome.failErr ∧
       (getOrCreateWebhook pW false false coOk CreateRes.quota
           CreateRes.quota).2.2 = 1 ∧
       (getOrCreateWebhook pW false false coOk CreateRes.quota
           CreateRes.quota).2.1.hooks = pW.hooks) ∧
     (coOk.fetchOk = true →
       (getOrCreateWebhook pW false false coOk CreateRes.quota
           CreateRes.quota).2.2 = 2 ∧
       (∀ wid, CreateRes.quota = CreateRes.ok wid →
         (getOrCreateWebhook pW false false coOk CreateRes.quota
             CreateRes.quota).1 = PoolOutcome.got ⟨qkName, wid⟩ ∧
         (getOrCreateWebhook pW false false coOk CreateRes.quota
             CreateRes.quota).2.1.hooks =
           cleanupResult pW.hooks coOk.delOk ++ [⟨qkName, wid⟩]) ∧
       ((∀ wid, CreateRes.quota ≠ CreateRes.ok wid) →
         (getOrCreateWebhook pW false false coOk CreateRes.quota
             CreateRes.quota).1 = PoolOutcome.failErr ∧
         (getOrCreateWebhook pW false false coOk CreateRes.quota
             CreateRes.quota).2.1.hooks =
           cleanupResult pW.hooks coOk.delOk)) ∧
     (cleanupResult pW.hooks coOk.delOk).filter isRecognized =
       (pW.hooks.filter isRecognized).take 1 ++
         ((pW.hooks.filter isRecognized).drop 1).filter
           (fun w => !coOk.delOk w) ∧
     ((∀ w, coOk.delOk w = true) →
       (cleanupResult pW.hooks coOk.delOk).filter isRecognized =
         (pW.hooks.filter isRecognized).take 1) ∧
     (pW.hooks.filter (fun w => !isRecognized w)).length ≤
       ((cleanupResult pW.hooks coOk.delOk).filter
         (fun w => !isRecognized w)).length + 5 ∧
     (pW.hooks.length < 15 →
       (cleanupResult pW.hooks coOk.delOk).filter
           (fun w => !isRecognized w) =
         pW.hooks.filter (fun w => !isRecognized w))) :=
  ⟨by decide,
   c9_quota_recovery pW false false coOk CreateRes.quota (by decide)
     (Or.inl rfl) (Or.inl rfl)⟩
end Bot
